import Mathlib

/-!
Verification development for the ar5iv2md document-transformation pipeline
(`src/ar5iv2md/__init__.py`).

Modelling conventions (shallow embedding):
* Python strings are `List Char` (abbreviated `LC`); bytes payloads are a type
  parameter.  Case-folding (`str.lower`) is modelled for ASCII letters, and
  `\d` in the reference-entry regex is modelled as the ASCII digits, which is
  what the bibliography convention `bib.bibN` uses.
* Stdlib / third-party collaborators that the source calls but does not
  define (`urljoin`, `urlparse` path extraction, the network fetch,
  BeautifulSoup parsing, markdownify) are passed in as explicit function
  arguments, mirroring the spec's "external collaborator" boundary.
* Stateful loops become explicit state-passing recursions; the ghost fields
  `fetchLog`/`writes`/`warnings` record the side effects (network fetch
  attempts, file writes, stderr warnings) without changing control flow.
-/

abbrev LC := List Char

def toLC (s : String) : LC := s.toList

/-- Python `str.isspace` characters: the set stripped by `str.strip()` and
matched by `\s` in a unicode regex. -/
def pyIsSpace (c : Char) : Bool :=
  c == ' ' || c == '\t' || c == '\n' || c == '\r' || c == '\x0b' || c == '\x0c' ||
  c == '\x1c' || c == '\x1d' || c == '\x1e' || c == '\x1f' || c == '\x85' || c == '\xa0' ||
  c == ' ' || c == ' ' || c == ' ' || c == ' ' || c == ' ' ||
  c == ' ' || c == ' ' || c == ' ' || c == ' ' || c == ' ' ||
  c == ' ' || c == ' ' || c == ' ' || c == ' ' || c == ' ' ||
  c == ' ' || c == '　'

/-- Python `str.strip()` with no argument: drop leading and trailing whitespace. -/
def pyStrip (l : LC) : LC :=
  ((l.dropWhile pyIsSpace).reverse.dropWhile pyIsSpace).reverse

/-- ASCII case folding, modelling `str.lower()` on the ASCII range. -/
def asciiLower (c : Char) : Char :=
  if 'A' ≤ c ∧ c ≤ 'Z' then Char.ofNat (c.toNat + 32) else c

def lowerLC (l : LC) : LC := l.map asciiLower

/-- Does `needle` occur as a prefix of `hay` (Python `str.startswith`)? -/
def lcIsPrefix : LC → LC → Bool
  | [], _ => true
  | _ :: _, [] => false
  | a :: as, b :: bs => a == b && lcIsPrefix as bs

/-- Python substring containment `needle in hay`. -/
def lcContains (needle : LC) : LC → Bool
  | [] => needle.isEmpty
  | c :: rest => lcIsPrefix needle (c :: rest) || lcContains needle rest

/-- Line-boundary characters recognised by Python `str.splitlines`. -/
def pyIsLineBreak (c : Char) : Bool :=
  c == '\n' || c == '\r' || c == '\x0b' || c == '\x0c' || c == '\x1c' ||
  c == '\x1d' || c == '\x1e' || c == '\x85' || c == ' ' || c == ' '

def pySplitlinesAux : LC → LC → List LC
  | [], acc => if acc.isEmpty then [] else [acc.reverse]
  | '\r' :: '\n' :: rest, acc => acc.reverse :: pySplitlinesAux rest []
  | c :: rest, acc =>
    if pyIsLineBreak c then acc.reverse :: pySplitlinesAux rest []
    else pySplitlinesAux rest (c :: acc)

/-- Python `str.splitlines()`: line boundaries are consumed, a trailing
boundary does not produce a final empty line. -/
def pySplitlines (l : LC) : List LC := pySplitlinesAux l []

/-- Python `"\n".join(lines)`. -/
def joinNL : List LC → LC
  | [] => []
  | [l] => l
  | l :: ls => l ++ '\n' :: joinNL ls

/-- Python `md_text.endswith("\n")`. -/
def endsWithNL (l : LC) : Bool :=
  match l.getLast? with
  | some c => c == '\n'
  | none => false

def isAsciiDigit (c : Char) : Bool := '0' ≤ c && c ≤ '9'

def decDigit : Nat → Char
  | 0 => '0' | 1 => '1' | 2 => '2' | 3 => '3' | 4 => '4'
  | 5 => '5' | 6 => '6' | 7 => '7' | 8 => '8' | _ => '9'

def digitVal (c : Char) : Nat := c.toNat - 48

def natToDecAux : Nat → Nat → LC
  | 0, _ => []
  | fuel + 1, n =>
    if n < 10 then [decDigit n]
    else natToDecAux fuel (n / 10) ++ [decDigit (n % 10)]

/-- Decimal rendering of a natural number, modelling Python `str(i)`.
The fuel `n + 1` always suffices since the argument strictly decreases. -/
def natToDec (n : Nat) : LC := natToDecAux (n + 1) n

/-- Evaluate a decimal digit string back to a number (proof tool only). -/
def decVal (l : LC) : Nat := l.foldl (fun a c => a * 10 + digitVal c) 0

theorem digitVal_decDigit {n : Nat} (h : n < 10) : digitVal (decDigit n) = n := by
  interval_cases n <;> rfl

theorem decVal_append_digit (xs : LC) (c : Char) :
    decVal (xs ++ [c]) = decVal xs * 10 + digitVal c := by
  simp [decVal, List.foldl_append]

theorem decVal_natToDecAux : ∀ fuel n, n < fuel → decVal (natToDecAux fuel n) = n := by
  intro fuel
  induction fuel with
  | zero => intro n h; omega
  | succ f ih =>
    intro n h
    by_cases h10 : n < 10
    · simp [natToDecAux, h10, decVal, digitVal_decDigit h10]
    · have hdiv : n / 10 < n := Nat.div_lt_self (by omega) (by omega)
      have : n / 10 < f := by omega
      simp [natToDecAux, h10, decVal_append_digit, ih _ this,
        digitVal_decDigit (Nat.mod_lt n (by omega))]
      omega

theorem decVal_natToDec (n : Nat) : decVal (natToDec n) = n :=
  decVal_natToDecAux (n + 1) n (Nat.lt_succ_self n)

theorem natToDec_injective {m n : Nat} (h : natToDec m = natToDec n) : m = n := by
  have := decVal_natToDec m
  rw [h, decVal_natToDec n] at this
  omega

theorem natToDecAux_ne_nil : ∀ fuel n, fuel ≠ 0 → natToDecAux fuel n ≠ [] := by
  intro fuel n h
  match fuel with
  | 0 => exact absurd rfl h
  | f + 1 =>
    by_cases h10 : n < 10 <;> simp [natToDecAux, h10]

theorem natToDec_ne_nil (n : Nat) : natToDec n ≠ [] :=
  natToDecAux_ne_nil (n + 1) n (by omega)

def isBulletChar (c : Char) : Bool := c == '*' || c == '-'

/-- Python `re.match(r"^[\*-] ", line)` as a Boolean test. -/
def matchBulletSpace : LC → Bool
  | c1 :: c2 :: _ => isBulletChar c1 && c2 == ' '
  | _ => false

/-- Python `re.match(r"^[\*-] \[(\d{1,3})\]", line)`, returning the digit
group.  With backtracking, the pattern matches exactly when the maximal
digit run after `[` has length 1 to 3 and is immediately followed by `]`
(a longer run leaves a digit, not `]`, after any 1-to-3-digit prefix). -/
def matchNumPat : LC → Option LC
  | c1 :: c2 :: c3 :: rest =>
    if isBulletChar c1 && c2 == ' ' && c3 == '[' then
      let d := rest.takeWhile isAsciiDigit
      if d.isEmpty then none
      else if d.length ≤ 3 then
        match rest.drop d.length with
        | ']' :: _ => some d
        | _ => none
      else none
    else none
  | _ => none

/-- Python `re.match(r"^([\*-]\s+)(.*)$", line)`: the greedy groups
`(bullet marker and following whitespace, rest of line)`. -/
def matchLead : LC → Option (LC × LC)
  | [] => none
  | c1 :: rest =>
    if isBulletChar c1 then
      let ws := rest.takeWhile pyIsSpace
      if ws.isEmpty then none
      else some (c1 :: ws, rest.dropWhile pyIsSpace)
    else none

/-- The inserted anchor text `<a id="{rid}" name="{rid}"></a>`. -/
def anchorFor (rid : LC) : LC :=
  toLC "<a id=\"" ++ rid ++ toLC "\" name=\"" ++ rid ++ toLC "\"></a>"

/-- Python `line.strip().lower() == "references"`. -/
def isRefsMarker (l : LC) : Bool := lowerLC (pyStrip l) == toLC "references"

/-- Body of the scan loop of `_add_md_bib_anchors` for one line once
`in_refs` holds: returns the (possibly replaced) line and the new harvest
cursor `idx`. -/
def processRefLine (ids : List LC) (idx : Nat) (line : LC) : LC × Nat :=
  match matchNumPat line with
  | some d =>
    let rid := toLC "bib.bib" ++ d
    match matchLead line with
    | some br => (br.1 ++ anchorFor rid ++ br.2, idx)
    | none => (line, idx)
  | none =>
    if !ids.isEmpty && matchBulletSpace line then
      if h : idx < ids.length then
        let rid := ids.get ⟨idx, h⟩
        match matchLead line with
        | some br => (br.1 ++ anchorFor rid ++ br.2, idx + 1)
        | none => (line, idx + 1)
      else (line, idx)
    else (line, idx)

/-- The line scan of `_add_md_bib_anchors`: before the references marker
lines pass through and the marker flips `in_refs`; after it each line goes
through `processRefLine`.  Returns the processed lines and the final cursor. -/
def addAnchorsGo (ids : List LC) : Bool → Nat → List LC → List LC × Nat
  | _, idx, [] => ([], idx)
  | false, idx, l :: ls =>
    let r := addAnchorsGo ids (isRefsMarker l) idx ls
    (l :: r.1, r.2)
  | true, idx, l :: ls =>
    let p := processRefLine ids idx l
    let r := addAnchorsGo ids true p.2 ls
    (p.1 :: r.1, r.2)

/-- `_add_md_bib_anchors(md_text, ids_in_order)` from the source.  The
`replacements` dictionary keyed by distinct line indices and applied after
the scan is equivalent to replacing each line as it is scanned, which is how
the recursion writes it. -/
def _add_md_bib_anchors (mdText : LC) (ids : List LC) : LC :=
  let r := addAnchorsGo ids false 0 (pySplitlines mdText)
  joinNL r.1 ++ (if endsWithNL mdText then [] else ['\n'])

example : _add_md_bib_anchors (toLC "a") [] = toLC "a\n" := by decide

example : _add_md_bib_anchors (toLC "b\n") [] = toLC "b" := by decide

example : _add_md_bib_anchors (toLC "references\n- [12] x") [] =
    toLC "references\n- <a id=\"bib.bib12\" name=\"bib.bib12\"></a>[12] x\n" := by decide

example : _add_md_bib_anchors (toLC "references\n- [1234] x") [toLC "id1"] =
    toLC "references\n- <a id=\"id1\" name=\"id1\"></a>[1234] x\n" := by decide

example : _add_md_bib_anchors (toLC "references\n- aa\n- bb\n- cc") [toLC "u", toLC "v"] =
    toLC "references\n- <a id=\"u\" name=\"u\"></a>aa\n- <a id=\"v\" name=\"v\"></a>bb\n- cc\n" := by
  decide

theorem anchorFor_ne_nil (rid : LC) : anchorFor rid ≠ [] := by
  simp [anchorFor, toLC]

theorem matchLead_of_bulletSpace {l : LC} (h : matchBulletSpace l = true) :
    ∃ b r, matchLead l = some (b, r) ∧ l = b ++ r ∧ b ≠ [] := by
  match l with
  | [] => simp [matchBulletSpace] at h
  | [c] => simp [matchBulletSpace] at h
  | c1 :: c2 :: t =>
    simp only [matchBulletSpace, Bool.and_eq_true, beq_iff_eq] at h
    obtain ⟨hb, hc2⟩ := h
    subst hc2
    refine ⟨c1 :: (' ' :: t).takeWhile pyIsSpace, (' ' :: t).dropWhile pyIsSpace, ?_, ?_, by simp⟩
    · simp [matchLead, hb, List.takeWhile, show pyIsSpace ' ' = true from rfl]
    · simp [List.takeWhile_append_dropWhile]

theorem matchBulletSpace_of_numPat {l : LC} {d : LC} (h : matchNumPat l = some d) :
    matchBulletSpace l = true := by
  match l with
  | [] => simp [matchNumPat] at h
  | [c] => simp [matchNumPat] at h
  | [c1, c2] => simp [matchNumPat] at h
  | c1 :: c2 :: c3 :: rest =>
    by_cases hc : (isBulletChar c1 && c2 == ' ' && c3 == '[') = true
    · simp only [Bool.and_eq_true, beq_iff_eq] at hc
      simp [matchBulletSpace, hc.1.1, hc.1.2]
    · simp [matchNumPat, hc] at h

theorem replaced_ne {b r rid : LC} : b ++ anchorFor rid ++ r ≠ b ++ r := by
  intro h
  have hl := congrArg List.length h
  simp only [List.length_append] at hl
  have h0 : (anchorFor rid).length = 0 := by omega
  exact anchorFor_ne_nil rid (List.length_eq_zero.mp h0)

/-- In the numbered branch the cursor is untouched and the anchor id is
built from the bracketed digits, for any harvested list. -/
theorem processRefLine_num (ids : List LC) (idx : Nat) {line d : LC}
    (h : matchNumPat line = some d) :
    ∃ b r, matchLead line = some (b, r) ∧ line = b ++ r ∧
      processRefLine ids idx line =
        (b ++ anchorFor (toLC "bib.bib" ++ d) ++ r, idx) := by
  obtain ⟨b, r, hml, hsplit, -⟩ := matchLead_of_bulletSpace (matchBulletSpace_of_numPat h)
  exact ⟨b, r, hml, hsplit, by simp [processRefLine, h, hml]⟩

/-- Number of positions where two line lists differ (proof tool only). -/
def countDiff : List LC → List LC → Nat
  | a :: as, b :: bs => (if a = b then 0 else 1) + countDiff as bs
  | _, _ => 0

theorem processRefLine_no_bullet (ids : List LC) (idx : Nat) {line : LC}
    (hnum : matchNumPat line = none) (hb : matchBulletSpace line = false) :
    processRefLine ids idx line = (line, idx) := by
  simp [processRefLine, hnum, hb]

theorem processRefLine_nil_ids (idx : Nat) {line : LC}
    (hnum : matchNumPat line = none) :
    processRefLine [] idx line = (line, idx) := by
  simp [processRefLine, hnum]

theorem processRefLine_consume (ids : List LC) (idx : Nat) {line : LC}
    (hnum : matchNumPat line = none) (hb : matchBulletSpace line = true)
    (hids : ids ≠ []) (hidx : idx < ids.length) :
    ∃ b r, matchLead line = some (b, r) ∧ line = b ++ r ∧
      processRefLine ids idx line =
        (b ++ anchorFor (ids.get ⟨idx, hidx⟩) ++ r, idx + 1) := by
  obtain ⟨b, r, hml, hsplit, -⟩ := matchLead_of_bulletSpace hb
  refine ⟨b, r, hml, hsplit, ?_⟩
  have hne : ids.isEmpty = false := by
    cases ids with
    | nil => exact absurd rfl hids
    | cons a t => rfl
  simp [processRefLine, hnum, hb, hne, hidx, hml]

theorem processRefLine_exhausted (ids : List LC) (idx : Nat) {line : LC}
    (hnum : matchNumPat line = none) (hidx : ¬ idx < ids.length) :
    processRefLine ids idx line = (line, idx) := by
  by_cases hc : (!ids.isEmpty && matchBulletSpace line) = true <;>
    simp [processRefLine, hnum, hc, hidx]

theorem addAnchorsGo_refs (ids : List LC) :
    ∀ post idx, idx ≤ ids.length → (∀ l ∈ post, matchNumPat l = none) →
    (addAnchorsGo ids true idx post).2 =
      min (idx + (post.filter matchBulletSpace).length) ids.length ∧
    countDiff post (addAnchorsGo ids true idx post).1 =
      min (idx + (post.filter matchBulletSpace).length) ids.length - idx := by
  intro post
  induction post with
  | nil => intro idx hidx _; simp [addAnchorsGo, countDiff]; omega
  | cons l ls ih =>
    intro idx hidx hnum
    have hl := hnum l (by simp)
    have hls : ∀ x ∈ ls, matchNumPat x = none := fun x hx => hnum x (by simp [hx])
    by_cases hb : matchBulletSpace l = true
    · by_cases hcur : idx < ids.length
      · have hids : ids ≠ [] := by
          intro h; rw [h] at hcur; simp at hcur
        obtain ⟨b, r, hml, hsplit, hp⟩ := processRefLine_consume ids idx hl hb hids hcur
        have hih := ih (idx + 1) (by omega) hls
        have hchanged : ¬ (l = b ++ anchorFor (ids.get ⟨idx, hcur⟩) ++ r) := by
          rw [hsplit]; exact fun h => replaced_ne h.symm
        simp only [addAnchorsGo, hp, List.filter_cons, hb, if_true, countDiff,
          hchanged, if_false, List.length_cons] at hih ⊢
        omega
      · have hp := processRefLine_exhausted ids idx hl hcur
        have hih := ih idx hidx hls
        simp only [addAnchorsGo, hp, List.filter_cons, hb, if_true, countDiff,
          if_pos rfl, List.length_cons] at hih ⊢
        omega
    · have hbf : matchBulletSpace l = false := by simpa using hb
      have hp := processRefLine_no_bullet ids idx hl hbf
      have hih := ih idx hidx hls
      simp [addAnchorsGo, hp, List.filter_cons, hbf, countDiff] at hih ⊢
      omega

theorem addAnchorsGo_pre (ids : List LC) :
    ∀ pre idx rest, (∀ l ∈ pre, isRefsMarker l = false) →
      addAnchorsGo ids false idx (pre ++ rest) =
        (pre ++ (addAnchorsGo ids false idx rest).1, (addAnchorsGo ids false idx rest).2) := by
  intro pre
  induction pre with
  | nil => intro idx rest _; simp
  | cons l ls ih =>
    intro idx rest h
    have hl : isRefsMarker l = false := h l (by simp)
    have hih := ih idx rest (fun x hx => h x (by simp [hx]))
    simp [addAnchorsGo, hl, hih]

theorem addAnchorsGo_marker (ids : List LC) (idx : Nat) {mk : LC} (post : List LC)
    (hmk : isRefsMarker mk = true) :
    addAnchorsGo ids false idx (mk :: post) =
      (mk :: (addAnchorsGo ids true idx post).1, (addAnchorsGo ids true idx post).2) := by
  simp [addAnchorsGo, hmk]

theorem addAnchorsGo_length (ids : List LC) :
    ∀ ls st idx, (addAnchorsGo ids st idx ls).1.length = ls.length := by
  intro ls
  induction ls with
  | nil => intro st idx; cases st <;> simp [addAnchorsGo]
  | cons l t ih => intro st idx; cases st <;> simp [addAnchorsGo, ih]

/-- C1 (code-bug evidence): `_add_md_bib_anchors` inverts the trailing-newline
convention instead of preserving it.  The input `"a"` without a trailing
newline yields `"a\n"` with one, and the input `"b\n"` ending with exactly one
newline yields `"b"` with none, because the final append at the end of the
function adds `"\n"` precisely when the input did not end with it. -/
theorem c1_trailing_newline_inverted :
    _add_md_bib_anchors (toLC "a") [] = toLC "a\n" ∧
    endsWithNL (toLC "a") = false ∧
    endsWithNL (_add_md_bib_anchors (toLC "a") []) = true ∧
    _add_md_bib_anchors (toLC "b\n") [] = toLC "b" ∧
    endsWithNL (toLC "b\n") = true ∧
    endsWithNL (_add_md_bib_anchors (toLC "b\n") []) = false := by decide

/-- C3 counterexample: a reference line with a four-digit bracketed number is
not matched by the `\d{1,3}` pattern of `_add_md_bib_anchors`, so contrary to
the claim no `bib.bib1234` anchor is inserted for it and a harvested
identifier is consumed instead. -/
theorem c3_counterexample :
    _add_md_bib_anchors (toLC "references\n- [1234] x") [toLC "id1"] =
      toLC "references\n- <a id=\"id1\" name=\"id1\"></a>[1234] x\n" ∧
    lcContains (toLC "bib.bib1234")
      (_add_md_bib_anchors (toLC "references\n- [1234] x") [toLC "id1"]) = false := by
  decide

/-- C3 (amended): for every line after the references marker that starts with
a bullet marker, a space, and a bracketed decimal number of one to three
digits, the per-line step of `_add_md_bib_anchors` inserts the anchor with the
deterministically constructed id `bib.bibN` immediately after the bullet
marker and its following whitespace, and consumes no harvested identifier —
for every harvested list (empty or not) and every cursor position. -/
theorem c3_numbered_anchor (ids : List LC) (idx : Nat) (line d : LC)
    (h : matchNumPat line = some d) :
    ∃ b r, matchLead line = some (b, r) ∧ line = b ++ r ∧
      processRefLine ids idx line =
        (b ++ anchorFor (toLC "bib.bib" ++ d) ++ r, idx) :=
  processRefLine_num ids idx h

theorem c3_numbered_anchor_witness :
    ∃ b r, matchLead (toLC "- [7] y") = some (b, r) ∧ toLC "- [7] y" = b ++ r ∧
      processRefLine [] 5 (toLC "- [7] y") =
        (b ++ anchorFor (toLC "bib.bib" ++ toLC "7") ++ r, 5) :=
  c3_numbered_anchor [] 5 (toLC "- [7] y") (toLC "7") (by decide)

/-- C6: for a Markdown text whose lines are a marker-free prefix, the
references marker, and a tail whose lines never match the manually-numbered
pattern, the scan consumes exactly `min K M` harvested identifiers (`K` the
number of bullet lines after the marker, `M` the harvested-list length) and
changes exactly that many lines; consumption never exceeds `M` and the prefix
and marker pass through unchanged. -/
theorem c6_harvest_anchor_count (ids : List LC) (mdText : LC)
    (pre post : List LC) (mk : LC)
    (hsplit : pySplitlines mdText = pre ++ mk :: post)
    (hpre : ∀ l ∈ pre, isRefsMarker l = false)
    (hmk : isRefsMarker mk = true)
    (hnum : ∀ l ∈ post, matchNumPat l = none) :
    ∃ post' : List LC,
      post'.length = post.length ∧
      addAnchorsGo ids false 0 (pySplitlines mdText) =
        (pre ++ mk :: post', min (post.filter matchBulletSpace).length ids.length) ∧
      countDiff post post' = min (post.filter matchBulletSpace).length ids.length ∧
      _add_md_bib_anchors mdText ids =
        joinNL (pre ++ mk :: post') ++ (if endsWithNL mdText then [] else ['\n']) := by
  have hrefs := addAnchorsGo_refs ids post 0 (by omega) hnum
  have hmin : min (0 + (post.filter matchBulletSpace).length) ids.length =
      min (post.filter matchBulletSpace).length ids.length := by omega
  have hkey : addAnchorsGo ids false 0 (pySplitlines mdText) =
      (pre ++ mk :: (addAnchorsGo ids true 0 post).1,
        min (post.filter matchBulletSpace).length ids.length) := by
    rw [hsplit, addAnchorsGo_pre ids pre 0 (mk :: post) hpre,
      addAnchorsGo_marker ids 0 post hmk]
    simp [hrefs.1, hmin]
  refine ⟨(addAnchorsGo ids true 0 post).1, addAnchorsGo_length ids post true 0,
    hkey, ?_, ?_⟩
  · rw [hrefs.2]; omega
  · simp only [_add_md_bib_anchors]
    rw [hkey]

theorem c6_harvest_anchor_count_witness :
    ∃ post' : List LC,
      post'.length = [toLC "- a", toLC "- b"].length ∧
      addAnchorsGo [toLC "u"] false 0 (pySplitlines (toLC "references\n- a\n- b")) =
        ([] ++ toLC "references" :: post',
          min (([toLC "- a", toLC "- b"].filter matchBulletSpace).length)
            [toLC "u"].length) ∧
      countDiff [toLC "- a", toLC "- b"] post' =
        min (([toLC "- a", toLC "- b"].filter matchBulletSpace).length)
          [toLC "u"].length ∧
      _add_md_bib_anchors (toLC "references\n- a\n- b") [toLC "u"] =
        joinNL ([] ++ toLC "references" :: post') ++
          (if endsWithNL (toLC "references\n- a\n- b") then [] else ['\n']) :=
  c6_harvest_anchor_count [toLC "u"] (toLC "references\n- a\n- b")
    [] [toLC "- a", toLC "- b"] (toLC "references")
    (by decide) (by decide) (by decide) (by decide)

/-- Index of the last occurrence of `c` in `l` (Python `str.rfind`), if any. -/
def lastIdxOf : LC → Char → Option Nat
  | [], _ => none
  | x :: xs, c =>
    match lastIdxOf xs c with
    | some i => some (i + 1)
    | none => if x = c then some 0 else none

/-- Posix `os.path.splitext`: split at the last dot when it lies after the
last path separator and the component has a non-dot character before it
(leading dots of the final component never start an extension). -/
def splitext (p : LC) : LC × LC :=
  match lastIdxOf p '.' with
  | none => (p, [])
  | some d =>
    let s := match lastIdxOf p '/' with
      | none => 0
      | some k => k + 1
    if s ≤ d ∧ ((p.take d).drop s).any (fun c => c != '.') then
      (p.take d, p.drop d)
    else (p, [])

/-- Candidate file names tried by `_unique_name`, in order: `stem+ext` first,
then `stem-i+ext` for `i = 1, 2, ...`. -/
def uniqueCandidate (stem ext : LC) : Nat → LC
  | 0 => stem ++ ext
  | k + 1 => stem ++ '-' :: (natToDec (k + 1) ++ ext)

def uniqueNameGo (files : List LC) (stem ext : LC) : Nat → Nat → LC
  | 0, i => uniqueCandidate stem ext i
  | fuel + 1, i =>
    if uniqueCandidate stem ext i ∈ files then uniqueNameGo files stem ext fuel (i + 1)
    else uniqueCandidate stem ext i

/-- `_unique_name(directory, base)` from the source; the directory contents
are the list `files` and `(directory / candidate).exists()` is membership.
The while loop is a fuel recursion; fuel `files.length + 1` always reaches
the first fresh candidate since candidates are pairwise distinct and at most
`files.length` of them can be taken. -/
def _unique_name (files : List LC) (base : LC) : LC :=
  let se := splitext base
  let ext := if se.2.isEmpty then toLC ".bin" else se.2
  uniqueNameGo files se.1 ext (files.length + 1) 0

/-- Assets-directory contents after `n` successive collisions: each step asks
`_unique_name` for a name for the same candidate basename and then writes it. -/
def insertNames (base : LC) : Nat → List LC
  | 0 => []
  | n + 1 => insertNames base n ++ [_unique_name (insertNames base n) base]

theorem uniqueCandidate_injective (stem ext : LC) :
    Function.Injective (uniqueCandidate stem ext) := by
  intro i j h
  match i, j with
  | 0, 0 => rfl
  | 0, j + 1 =>
    have := congrArg List.length h
    have hd := natToDec_ne_nil (j + 1)
    have : (natToDec (j + 1)).length ≠ 0 := fun h0 => hd (List.length_eq_zero.mp h0)
    simp [uniqueCandidate, List.length_append] at *
    omega
  | i + 1, 0 =>
    have := congrArg List.length h
    have hd := natToDec_ne_nil (i + 1)
    have : (natToDec (i + 1)).length ≠ 0 := fun h0 => hd (List.length_eq_zero.mp h0)
    simp [uniqueCandidate, List.length_append] at *
    omega
  | i + 1, j + 1 =>
    simp only [uniqueCandidate] at h
    have h2 := (List.append_inj h rfl).2
    have h3 := List.cons_injective h2
    have hlen : (natToDec (i + 1)).length = (natToDec (j + 1)).length := by
      have := congrArg List.length h3
      simp [List.length_append] at this
      omega
    have h4 := (List.append_inj h3 hlen).1
    have := natToDec_injective h4
    omega

theorem uniqueNameGo_spec (files : List LC) (stem ext : LC) :
    ∀ fuel j k, j + fuel = k + 1 → j ≤ k →
    (∀ i, j ≤ i → i < k → uniqueCandidate stem ext i ∈ files) →
    uniqueCandidate stem ext k ∉ files →
    uniqueNameGo files stem ext fuel j = uniqueCandidate stem ext k := by
  intro fuel
  induction fuel with
  | zero => intro j k hjf hjk _ _; omega
  | succ f ih =>
    intro j k hjf hjk hmem hfree
    by_cases hjk' : j = k
    · subst hjk'
      simp [uniqueNameGo, hfree]
    · have hj : j < k := by omega
      have hin : uniqueCandidate stem ext j ∈ files := hmem j le_rfl hj
      simp only [uniqueNameGo, hin, if_true]
      exact ih (j + 1) k (by omega) (by omega) (fun i hi hik => hmem i (by omega) hik) hfree

theorem unique_name_on_range (base : LC) (k : Nat) :
    _unique_name ((List.range k).map
      (uniqueCandidate (splitext base).1
        (if (splitext base).2.isEmpty then toLC ".bin" else (splitext base).2))) base =
    uniqueCandidate (splitext base).1
      (if (splitext base).2.isEmpty then toLC ".bin" else (splitext base).2) k := by
  simp only [_unique_name, List.length_map, List.length_range]
  apply uniqueNameGo_spec
  · omega
  · omega
  · intro i _ hik
    exact List.mem_map.mpr ⟨i, List.mem_range.mpr hik, rfl⟩
  · intro hmem
    obtain ⟨i, hi, heq⟩ := List.mem_map.mp hmem
    have := uniqueCandidate_injective _ _ heq
    rw [this] at hi
    exact absurd (List.mem_range.mp hi) (lt_irrefl k)

/-- C10: starting from an empty assets directory, `n` successive insertions of
the same colliding candidate basename produce exactly the filenames
`stem+ext`, `stem-1+ext`, `stem-2+ext`, ... in order — all pairwise distinct,
with the numeric suffix placed before the extension; a basename with no
extension first receives the synthetic extension `.bin`. -/
theorem c10_unique_naming (base : LC) (n : Nat) :
    insertNames base n =
      (List.range n).map
        (uniqueCandidate (splitext base).1
          (if (splitext base).2.isEmpty then toLC ".bin" else (splitext base).2)) ∧
    (insertNames base n).Nodup := by
  have hmain : ∀ m, insertNames base m =
      (List.range m).map
        (uniqueCandidate (splitext base).1
          (if (splitext base).2.isEmpty then toLC ".bin" else (splitext base).2)) := by
    intro m
    induction m with
    | zero => simp [insertNames]
    | succ m ih =>
      simp only [insertNames, ih]
      rw [unique_name_on_range base m, List.range_succ, List.map_append, List.map_singleton]
  refine ⟨hmain n, ?_⟩
  rw [hmain n]
  exact List.Nodup.map (uniqueCandidate_injective _ _) (List.nodup_range n)

example : insertNames (toLC "fig.png") 3 =
    [toLC "fig.png", toLC "fig-1.png", toLC "fig-2.png"] := by decide

example : _unique_name [] (toLC "image") = toLC "image.bin" := by decide

example : _unique_name [toLC "image.bin"] (toLC "image") = toLC "image-1.bin" := by decide

/-- State of one `_rewrite_images` run.  `cache` is the `abs_url -> rel` dict,
`files` the assets-directory contents consulted by `_unique_name`;
`fetchLog`, `writes` and `warnings` are ghost logs recording the attempted
downloads, the `(url, name, bytes)` file writes, and the stderr warnings,
without influencing control flow. -/
structure RewState (β : Type) where
  cache : List (LC × LC)
  files : List LC
  fetchLog : List LC
  writes : List (LC × LC × β)
  warnings : List LC

/-- First-match association lookup, modelling the Python dict (keys are
never inserted twice, so first match is the only match). -/
def alookup (k : LC) : List (LC × LC) → Option LC
  | [] => none
  | p :: rest => if p.1 = k then some p.2 else alookup k rest

/-- Warning emitted on a failed image download (the appended Python
exception detail is dropped from the model). -/
def warnDownloadMsg (u : LC) : LC := toLC "warn: failed to download image: " ++ u

/-- One iteration of the `for img in soup.find_all("img")` loop of
`_rewrite_images`, for an image whose raw `src` attribute is `src0`.
`urljoin` resolves a stripped reference against the base URL, `basenameOf`
models `os.path.basename(urlparse(abs_url).path)`, and `download` models
`_download` with `none` standing for a raised exception.  Returns the new
state and the image's new `src` attribute (`none` when it is left
untouched). -/
def rewriteStep {β : Type} (urljoin basenameOf : LC → LC) (download : LC → Option β)
    (st : RewState β) (src0 : Option LC) : RewState β × Option LC :=
  let src := pyStrip (src0.getD [])
  if src.isEmpty || lcIsPrefix (toLC "data:") src then (st, none)
  else
    let absU := urljoin src
    match alookup absU st.cache with
    | some rel => (st, some rel)
    | none =>
      let bn := basenameOf absU
      let filename := if bn.isEmpty then toLC "image" else bn
      let name := _unique_name st.files filename
      match download absU with
      | none =>
        (⟨st.cache, st.files, st.fetchLog ++ [absU], st.writes,
          st.warnings ++ [warnDownloadMsg absU]⟩, none)
      | some data =>
        (⟨st.cache ++ [(absU, toLC "assets/" ++ name)], st.files ++ [name],
          st.fetchLog ++ [absU], st.writes ++ [(absU, name, data)],
          st.warnings⟩, some (toLC "assets/" ++ name))

def rewriteRun {β : Type} (urljoin basenameOf : LC → LC) (download : LC → Option β) :
    RewState β → List (Option LC) → RewState β × List (Option LC)
  | st, [] => (st, [])
  | st, src0 :: rest =>
    let p := rewriteStep urljoin basenameOf download st src0
    let r := rewriteRun urljoin basenameOf download p.1 rest
    (r.1, p.2 :: r.2)

/-- `_rewrite_images(soup, base_url, assets_dir)` from the source: the run,
in document order, over the raw `src` attributes of `soup.find_all("img")`,
starting from an empty cache and the pre-existing directory contents
`files0` (`assets_dir.mkdir` only ensures the directory exists). -/
def _rewrite_images {β : Type} (urljoin basenameOf : LC → LC)
    (download : LC → Option β) (files0 : List LC) (imgs : List (Option LC)) :
    RewState β × List (Option LC) :=
  rewriteRun urljoin basenameOf download ⟨[], files0, [], [], []⟩ imgs

/-- Does the image with raw attribute `src0` survive the skip checks and
resolve to the absolute URL `u`? -/
def resolvesTo (urljoin : LC → LC) (u : LC) (src0 : Option LC) : Bool :=
  let src := pyStrip (src0.getD [])
  !src.isEmpty && !lcIsPrefix (toLC "data:") src && (urljoin src == u)

theorem alookup_append (k : LC) (l1 l2 : List (LC × LC)) :
    alookup k (l1 ++ l2) =
      match alookup k l1 with
      | some v => some v
      | none => alookup k l2 := by
  induction l1 with
  | nil => simp [alookup]
  | cons p t ih => by_cases hp : p.1 = k <;> simp [alookup, hp, ih]

theorem alookup_mem {k v : LC} : ∀ {l : List (LC × LC)}, alookup k l = some v → (k, v) ∈ l := by
  intro l
  induction l with
  | nil => intro h; simp [alookup] at h
  | cons p t ih =>
    intro h
    by_cases hp : p.1 = k
    · cases p with
      | mk a b =>
        simp at hp
        simp [alookup, hp] at h
        subst hp
        subst h
        exact List.mem_cons_self _ _
    · simp [alookup, hp] at h
      exact List.mem_cons_of_mem p (ih h)

/-- Occurrences of a URL in a fetch log (proof tool only). -/
def countOcc (u : LC) : List LC → Nat
  | [] => 0
  | x :: xs => (if x = u then 1 else 0) + countOcc u xs

/-- Writes recorded for a URL (proof tool only). -/
def countWrites {β : Type} (u : LC) : List (LC × LC × β) → Nat
  | [] => 0
  | w :: ws => (if w.1 = u then 1 else 0) + countWrites u ws

theorem countOcc_append (u : LC) (l1 l2 : List LC) :
    countOcc u (l1 ++ l2) = countOcc u l1 + countOcc u l2 := by
  induction l1 with
  | nil => simp [countOcc]
  | cons x xs ih => simp [countOcc, ih]; omega

theorem countWrites_append {β : Type} (u : LC) (l1 l2 : List (LC × LC × β)) :
    countWrites u (l1 ++ l2) = countWrites u l1 + countWrites u l2 := by
  induction l1 with
  | nil => simp [countWrites]
  | cons x xs ih => simp [countWrites, ih]; omega

theorem rewriteStep_skip {β : Type} (uj bn : LC → LC) (dl : LC → Option β)
    (st : RewState β) (src0 : Option LC)
    (h : ((pyStrip (src0.getD [])).isEmpty
      || lcIsPrefix (toLC "data:") (pyStrip (src0.getD []))) = true) :
    rewriteStep uj bn dl st src0 = (st, none) := by
  simp [rewriteStep, h]

theorem rewriteStep_hit {β : Type} (uj bn : LC → LC) (dl : LC → Option β)
    (st : RewState β) (src0 : Option LC) (rel : LC)
    (hns : ((pyStrip (src0.getD [])).isEmpty
      || lcIsPrefix (toLC "data:") (pyStrip (src0.getD []))) = false)
    (hc : alookup (uj (pyStrip (src0.getD []))) st.cache = some rel) :
    rewriteStep uj bn dl st src0 = (st, some rel) := by
  simp [rewriteStep, hns, hc]

theorem rewriteStep_miss_fail {β : Type} (uj bn : LC → LC) (dl : LC → Option β)
    (st : RewState β) (src0 : Option LC)
    (hns : ((pyStrip (src0.getD [])).isEmpty
      || lcIsPrefix (toLC "data:") (pyStrip (src0.getD []))) = false)
    (hc : alookup (uj (pyStrip (src0.getD []))) st.cache = none)
    (hdl : dl (uj (pyStrip (src0.getD []))) = none) :
    rewriteStep uj bn dl st src0 =
      (⟨st.cache, st.files, st.fetchLog ++ [uj (pyStrip (src0.getD []))], st.writes,
        st.warnings ++ [warnDownloadMsg (uj (pyStrip (src0.getD [])))]⟩, none) := by
  simp [rewriteStep, hns, hc, hdl]

theorem rewriteStep_miss_ok {β : Type} (uj bn : LC → LC) (dl : LC → Option β)
    (st : RewState β) (src0 : Option LC) (data : β)
    (hns : ((pyStrip (src0.getD [])).isEmpty
      || lcIsPrefix (toLC "data:") (pyStrip (src0.getD []))) = false)
    (hc : alookup (uj (pyStrip (src0.getD []))) st.cache = none)
    (hdl : dl (uj (pyStrip (src0.getD []))) = some data) :
    rewriteStep uj bn dl st src0 =
      (⟨st.cache ++ [(uj (pyStrip (src0.getD [])),
          toLC "assets/" ++ _unique_name st.files
            (if (bn (uj (pyStrip (src0.getD [])))).isEmpty then toLC "image"
             else bn (uj (pyStrip (src0.getD [])))))],
        st.files ++ [_unique_name st.files
            (if (bn (uj (pyStrip (src0.getD [])))).isEmpty then toLC "image"
             else bn (uj (pyStrip (src0.getD []))))],
        st.fetchLog ++ [uj (pyStrip (src0.getD []))],
        st.writes ++ [(uj (pyStrip (src0.getD [])),
          _unique_name st.files
            (if (bn (uj (pyStrip (src0.getD [])))).isEmpty then toLC "image"
             else bn (uj (pyStrip (src0.getD [])))), data)],
        st.warnings⟩,
       some (toLC "assets/" ++ _unique_name st.files
          (if (bn (uj (pyStrip (src0.getD [])))).isEmpty then toLC "image"
           else bn (uj (pyStrip (src0.getD [])))))) := by
  simp [rewriteStep, hns, hc, hdl]

theorem resolvesTo_false_of_skip {uj : LC → LC} {u : LC} {src0 : Option LC}
    (h : ((pyStrip (src0.getD [])).isEmpty
      || lcIsPrefix (toLC "data:") (pyStrip (src0.getD []))) = true) :
    resolvesTo uj u src0 = false := by
  simp only [Bool.or_eq_true] at h
  rcases h with h | h <;> simp [resolvesTo, h]

theorem resolvesTo_true_elim {uj : LC → LC} {u : LC} {src0 : Option LC}
    (h : resolvesTo uj u src0 = true) :
    ((pyStrip (src0.getD [])).isEmpty
      || lcIsPrefix (toLC "data:") (pyStrip (src0.getD []))) = false ∧
    uj (pyStrip (src0.getD [])) = u := by
  simp only [resolvesTo, Bool.and_eq_true, Bool.not_eq_true', beq_iff_eq] at h
  simp [h.1.1, h.1.2, h.2]

theorem resolvesTo_false_of_ne {uj : LC → LC} {u : LC} {src0 : Option LC}
    (h : uj (pyStrip (src0.getD [])) ≠ u) :
    resolvesTo uj u src0 = false := by
  simp [resolvesTo, h]

theorem countOcc_snoc_ne {u x : LC} (l : List LC) (h : x ≠ u) :
    countOcc u (l ++ [x]) = countOcc u l := by
  simp [countOcc_append, countOcc, h]

theorem countOcc_snoc_eq {u : LC} (l : List LC) :
    countOcc u (l ++ [u]) = countOcc u l + 1 := by
  simp [countOcc_append, countOcc]

theorem countWrites_snoc_ne {β : Type} {u x : LC} (l : List (LC × LC × β))
    (nm : LC) (d : β) (h : x ≠ u) :
    countWrites u (l ++ [(x, nm, d)]) = countWrites u l := by
  simp [countWrites_append, countWrites, h]

theorem countWrites_snoc_eq {β : Type} {u : LC} (l : List (LC × LC × β))
    (nm : LC) (d : β) :
    countWrites u (l ++ [(u, nm, d)]) = countWrites u l + 1 := by
  simp [countWrites_append, countWrites]

theorem rewriteRun_cons {β : Type} (uj bn : LC → LC) (dl : LC → Option β)
    (st : RewState β) (src0 : Option LC) (rest : List (Option LC)) :
    rewriteRun uj bn dl st (src0 :: rest) =
      ((rewriteRun uj bn dl (rewriteStep uj bn dl st src0).1 rest).1,
       (rewriteStep uj bn dl st src0).2 ::
         (rewriteRun uj bn dl (rewriteStep uj bn dl st src0).1 rest).2) := by
  simp [rewriteRun]

/-- Once a URL is cached, the rest of the run never fetches or writes it
again and every later image resolving to it is rewritten to the cached
relative path. -/
theorem rewriteRun_cached {β : Type} (uj bn : LC → LC) (dl : LC → Option β) (u rel : LC) :
    ∀ (imgs : List (Option LC)) (st : RewState β),
    alookup u st.cache = some rel →
    alookup u (rewriteRun uj bn dl st imgs).1.cache = some rel ∧
    countOcc u (rewriteRun uj bn dl st imgs).1.fetchLog = countOcc u st.fetchLog ∧
    countWrites u (rewriteRun uj bn dl st imgs).1.writes = countWrites u st.writes ∧
    (rewriteRun uj bn dl st imgs).2.length = imgs.length ∧
    (∀ i (hi : i < imgs.length) (hi2 : i < (rewriteRun uj bn dl st imgs).2.length),
      resolvesTo uj u (imgs.get ⟨i, hi⟩) = true →
      (rewriteRun uj bn dl st imgs).2.get ⟨i, hi2⟩ = some rel) := by
  intro imgs
  induction imgs with
  | nil =>
    intro st h
    refine ⟨h, rfl, rfl, rfl, ?_⟩
    intro i hi
    simp at hi
  | cons src0 rest ih =>
    intro st h
    by_cases hskip : ((pyStrip (src0.getD [])).isEmpty
        || lcIsPrefix (toLC "data:") (pyStrip (src0.getD []))) = true
    · have hstep := rewriteStep_skip uj bn dl st src0 hskip
      have hres := @resolvesTo_false_of_skip uj u src0 hskip
      have hih := ih st h
      rw [rewriteRun_cons, hstep]
      refine ⟨hih.1, hih.2.1, hih.2.2.1, by simp [hih.2.2.2.1], ?_⟩
      intro i hi hi2 hrt
      match i with
      | 0 => simp [List.get] at hrt; rw [hres] at hrt; exact absurd hrt (by simp)
      | i + 1 =>
        have hi' : i < rest.length := by simpa using hi
        have hi2' : i < (rewriteRun uj bn dl st rest).2.length := by simpa using hi2
        have := hih.2.2.2.2 i hi' hi2' (by simpa using hrt)
        simpa using this
    · have hns : ((pyStrip (src0.getD [])).isEmpty
          || lcIsPrefix (toLC "data:") (pyStrip (src0.getD []))) = false := by
        simpa using hskip
      by_cases habs : uj (pyStrip (src0.getD [])) = u
      · have hstep := rewriteStep_hit uj bn dl st src0 rel hns (by rw [habs]; exact h)
        have hih := ih st h
        rw [rewriteRun_cons, hstep]
        refine ⟨hih.1, hih.2.1, hih.2.2.1, by simp [hih.2.2.2.1], ?_⟩
        intro i hi hi2 hrt
        match i with
        | 0 => simp [List.get]
        | i + 1 =>
          have hi' : i < rest.length := by simpa using hi
          have hi2' : i < (rewriteRun uj bn dl st rest).2.length := by simpa using hi2
          have := hih.2.2.2.2 i hi' hi2' (by simpa using hrt)
          simpa using this
      · have hres : resolvesTo uj u src0 = false := resolvesTo_false_of_ne habs
        cases hcc : alookup (uj (pyStrip (src0.getD []))) st.cache with
        | some rel' =>
          have hstep := rewriteStep_hit uj bn dl st src0 rel' hns hcc
          have hih := ih st h
          rw [rewriteRun_cons, hstep]
          refine ⟨hih.1, hih.2.1, hih.2.2.1, by simp [hih.2.2.2.1], ?_⟩
          intro i hi hi2 hrt
          match i with
          | 0 => simp [List.get] at hrt; rw [hres] at hrt; exact absurd hrt (by simp)
          | i + 1 =>
            have hi' : i < rest.length := by simpa using hi
            have hi2' : i < (rewriteRun uj bn dl st rest).2.length := by simpa using hi2
            have := hih.2.2.2.2 i hi' hi2' (by simpa using hrt)
            simpa using this
        | none =>
          cases hdl : dl (uj (pyStrip (src0.getD []))) with
          | none =>
            have hstep := rewriteStep_miss_fail uj bn dl st src0 hns hcc hdl
            have hih := ih ⟨st.cache, st.files,
              st.fetchLog ++ [uj (pyStrip (src0.getD []))], st.writes,
              st.warnings ++ [warnDownloadMsg (uj (pyStrip (src0.getD [])))]⟩ h
            rw [rewriteRun_cons, hstep]
            refine ⟨hih.1, ?_, hih.2.2.1, by simp [hih.2.2.2.1], ?_⟩
            · rw [hih.2.1]
              exact countOcc_snoc_ne st.fetchLog habs
            · intro i hi hi2 hrt
              match i with
              | 0 => simp [List.get] at hrt; rw [hres] at hrt; exact absurd hrt (by simp)
              | i + 1 =>
                have hi' : i < rest.length := by simpa using hi
                have hi2' : i < (rewriteRun uj bn dl ⟨st.cache, st.files,
                    st.fetchLog ++ [uj (pyStrip (src0.getD []))], st.writes,
                    st.warnings ++ [warnDownloadMsg (uj (pyStrip (src0.getD [])))]⟩
                    rest).2.length := by simpa using hi2
                have := hih.2.2.2.2 i hi' hi2' (by simpa using hrt)
                simpa using this
          | some data =>
            have hstep := rewriteStep_miss_ok uj bn dl st src0 data hns hcc hdl
            have hcache2 : alookup u (rewriteStep uj bn dl st src0).1.cache = some rel := by
              rw [hstep]
              simpa [alookup_append] using (by rw [h] :
                (match alookup u st.cache with
                 | some v => some v
                 | none => alookup u [(uj (pyStrip (src0.getD [])),
                     toLC "assets/" ++ _unique_name st.files
                       (if (bn (uj (pyStrip (src0.getD [])))).isEmpty then toLC "image"
                        else bn (uj (pyStrip (src0.getD [])))))]) = some rel)
            have hfl : (rewriteStep uj bn dl st src0).1.fetchLog =
                st.fetchLog ++ [uj (pyStrip (src0.getD []))] := by rw [hstep]
            have hwr : (rewriteStep uj bn dl st src0).1.writes =
                st.writes ++ [(uj (pyStrip (src0.getD [])),
                  _unique_name st.files
                    (if (bn (uj (pyStrip (src0.getD [])))).isEmpty then toLC "image"
                     else bn (uj (pyStrip (src0.getD [])))), data)] := by rw [hstep]
            have hih := ih (rewriteStep uj bn dl st src0).1 hcache2
            rw [rewriteRun_cons]
            refine ⟨hih.1, ?_, ?_, by simp [hih.2.2.2.1], ?_⟩
            · rw [hih.2.1, hfl]
              exact countOcc_snoc_ne st.fetchLog habs
            · rw [hih.2.2.1, hwr]
              exact countWrites_snoc_ne st.writes _ data habs
            · intro i hi hi2 hrt
              match i with
              | 0 => simp [List.get] at hrt; rw [hres] at hrt; exact absurd hrt (by simp)
              | i + 1 =>
                have hi' : i < rest.length := by simpa using hi
                have hi2' : i < (rewriteRun uj bn dl
                    (rewriteStep uj bn dl st src0).1 rest).2.length := by simpa using hi2
                have := hih.2.2.2.2 i hi' hi2' (by simpa using hrt)
                simpa using this

theorem ne_of_not_resolvesTo {uj : LC → LC} {u : LC} {src0 : Option LC}
    (hns : ((pyStrip (src0.getD [])).isEmpty
      || lcIsPrefix (toLC "data:") (pyStrip (src0.getD []))) = false)
    (hres : resolvesTo uj u src0 = false) :
    uj (pyStrip (src0.getD [])) ≠ u := by
  intro habs
  simp only [Bool.or_eq_false_iff] at hns
  simp [resolvesTo, hns.1, hns.2, habs] at hres

/-- A step whose image does not resolve to `u` leaves every `u`-relevant
observation unchanged (and only ever appends warnings). -/
theorem rewriteStep_not_resolving {β : Type} (uj bn : LC → LC) (dl : LC → Option β)
    (st : RewState β) (src0 : Option LC) (u : LC)
    (hres : resolvesTo uj u src0 = false) :
    alookup u (rewriteStep uj bn dl st src0).1.cache = alookup u st.cache ∧
    countOcc u (rewriteStep uj bn dl st src0).1.fetchLog = countOcc u st.fetchLog ∧
    countWrites u (rewriteStep uj bn dl st src0).1.writes = countWrites u st.writes ∧
    (∀ w ∈ st.warnings, w ∈ (rewriteStep uj bn dl st src0).1.warnings) := by
  by_cases hskip : ((pyStrip (src0.getD [])).isEmpty
      || lcIsPrefix (toLC "data:") (pyStrip (src0.getD []))) = true
  · rw [rewriteStep_skip uj bn dl st src0 hskip]
    exact ⟨rfl, rfl, rfl, fun w hw => hw⟩
  · have hns : ((pyStrip (src0.getD [])).isEmpty
        || lcIsPrefix (toLC "data:") (pyStrip (src0.getD []))) = false := by
      simpa using hskip
    have habs := ne_of_not_resolvesTo hns hres
    cases hcc : alookup (uj (pyStrip (src0.getD []))) st.cache with
    | some rel' =>
      rw [rewriteStep_hit uj bn dl st src0 rel' hns hcc]
      exact ⟨rfl, rfl, rfl, fun w hw => hw⟩
    | none =>
      cases hdl : dl (uj (pyStrip (src0.getD []))) with
      | none =>
        rw [rewriteStep_miss_fail uj bn dl st src0 hns hcc hdl]
        exact ⟨rfl, countOcc_snoc_ne st.fetchLog habs, rfl,
          fun w hw => List.mem_append_left _ hw⟩
      | some data =>
        rw [rewriteStep_miss_ok uj bn dl st src0 data hns hcc hdl]
        refine ⟨?_, countOcc_snoc_ne st.fetchLog habs,
          countWrites_snoc_ne st.writes _ data habs, fun w hw => hw⟩
        rw [alookup_append]
        cases h0 : alookup u st.cache with
        | some v => rfl
        | none => simp [alookup, habs]

/-- For a URL `u` whose download succeeds, a run starting with `u` uncached
either never meets an image resolving to `u` (and keeps it uncached,
unfetched and unwritten) or it caches `u` exactly once: one fetch, one file
write, and every image resolving to `u` rewritten to the same
`assets/<name>` path. -/
theorem rewriteRun_fresh {β : Type} (uj bn : LC → LC) (dl : LC → Option β)
    (u : LC) (b : β) (hdl : dl u = some b) :
    ∀ (imgs : List (Option LC)) (st : RewState β),
    alookup u st.cache = none →
    (rewriteRun uj bn dl st imgs).2.length = imgs.length ∧
    (((∀ i (hi : i < imgs.length), resolvesTo uj u (imgs.get ⟨i, hi⟩) = false) ∧
      alookup u (rewriteRun uj bn dl st imgs).1.cache = none ∧
      countOcc u (rewriteRun uj bn dl st imgs).1.fetchLog = countOcc u st.fetchLog ∧
      countWrites u (rewriteRun uj bn dl st imgs).1.writes = countWrites u st.writes) ∨
     (∃ name : LC,
      alookup u (rewriteRun uj bn dl st imgs).1.cache = some (toLC "assets/" ++ name) ∧
      countOcc u (rewriteRun uj bn dl st imgs).1.fetchLog = countOcc u st.fetchLog + 1 ∧
      countWrites u (rewriteRun uj bn dl st imgs).1.writes = countWrites u st.writes + 1 ∧
      ∀ i (hi : i < imgs.length) (hi2 : i < (rewriteRun uj bn dl st imgs).2.length),
        resolvesTo uj u (imgs.get ⟨i, hi⟩) = true →
        (rewriteRun uj bn dl st imgs).2.get ⟨i, hi2⟩ = some (toLC "assets/" ++ name))) := by
  intro imgs
  induction imgs with
  | nil =>
    intro st h
    refine ⟨rfl, Or.inl ⟨?_, h, rfl, rfl⟩⟩
    intro i hi
    simp at hi
  | cons src0 rest ih =>
    intro st h
    by_cases hres : resolvesTo uj u src0 = true
    · obtain ⟨hns, habs⟩ := resolvesTo_true_elim hres
      have hcc : alookup (uj (pyStrip (src0.getD []))) st.cache = none := by
        rw [habs]; exact h
      have hdl' : dl (uj (pyStrip (src0.getD []))) = some b := by
        rw [habs]; exact hdl
      have hstep := rewriteStep_miss_ok uj bn dl st src0 b hns hcc hdl'
      rw [habs] at hstep
      have hcache2 : alookup u (rewriteStep uj bn dl st src0).1.cache =
          some (toLC "assets/" ++ _unique_name st.files
            (if (bn u).isEmpty then toLC "image" else bn u)) := by
        rw [hstep, alookup_append, h]
        simp [alookup]
      have hcached := rewriteRun_cached uj bn dl u
        (toLC "assets/" ++ _unique_name st.files
          (if (bn u).isEmpty then toLC "image" else bn u))
        rest (rewriteStep uj bn dl st src0).1 hcache2
      have hfl : (rewriteStep uj bn dl st src0).1.fetchLog = st.fetchLog ++ [u] := by
        rw [hstep]
      have hwr : (rewriteStep uj bn dl st src0).1.writes =
          st.writes ++ [(u, _unique_name st.files
            (if (bn u).isEmpty then toLC "image" else bn u), b)] := by
        rw [hstep]
      have hout : (rewriteStep uj bn dl st src0).2 =
          some (toLC "assets/" ++ _unique_name st.files
            (if (bn u).isEmpty then toLC "image" else bn u)) := by
        rw [hstep]
      rw [rewriteRun_cons]
      refine ⟨by simp [hcached.2.2.2.1], Or.inr
        ⟨_unique_name st.files (if (bn u).isEmpty then toLC "image" else bn u),
          hcached.1, ?_, ?_, ?_⟩⟩
      · rw [hcached.2.1, hfl, countOcc_snoc_eq]
      · rw [hcached.2.2.1, hwr, countWrites_snoc_eq]
      · intro i hi hi2 hrt
        match i with
        | 0 => simp [List.get, hout]
        | i + 1 =>
          have hi' : i < rest.length := by simpa using hi
          have hi2' : i < (rewriteRun uj bn dl
              (rewriteStep uj bn dl st src0).1 rest).2.length := by simpa using hi2
          have := hcached.2.2.2.2 i hi' hi2' (by simpa using hrt)
          simpa using this
    · have hresf : resolvesTo uj u src0 = false := by simpa using hres
      have hpres := rewriteStep_not_resolving uj bn dl st src0 u hresf
      have hcc2 : alookup u (rewriteStep uj bn dl st src0).1.cache = none := by
        rw [hpres.1, h]
      have hih := ih (rewriteStep uj bn dl st src0).1 hcc2
      rw [rewriteRun_cons]
      refine ⟨by simp [hih.1], ?_⟩
      rcases hih.2 with ⟨hall, hc, hf, hw⟩ | ⟨name, hc, hf, hw, hog⟩
      · refine Or.inl ⟨?_, hc, by rw [hf, hpres.2.1], by rw [hw, hpres.2.2.1]⟩
        intro i hi
        match i with
        | 0 => simpa using hresf
        | i + 1 =>
          have hi' : i < rest.length := by simpa using hi
          simpa using hall i hi'
      · refine Or.inr ⟨name, hc, by rw [hf, hpres.2.1], by rw [hw, hpres.2.2.1], ?_⟩
        intro i hi hi2 hrt
        match i with
        | 0 => simp [List.get] at hrt; rw [hresf] at hrt; exact absurd hrt (by simp)
        | i + 1 =>
          have hi' : i < rest.length := by simpa using hi
          have hi2' : i < (rewriteRun uj bn dl
              (rewriteStep uj bn dl st src0).1 rest).2.length := by simpa using hi2
          have := hog i hi' hi2' (by simpa using hrt)
          simpa using this

/-- Cache entries are only ever created by a successful download, so the
cache never maps a URL whose download fails. -/
theorem rewriteStep_cache_inv {β : Type} (uj bn : LC → LC) (dl : LC → Option β)
    (st : RewState β) (src0 : Option LC)
    (hinv : ∀ p ∈ st.cache, dl p.1 ≠ none) :
    ∀ p ∈ (rewriteStep uj bn dl st src0).1.cache, dl p.1 ≠ none := by
  by_cases hskip : ((pyStrip (src0.getD [])).isEmpty
      || lcIsPrefix (toLC "data:") (pyStrip (src0.getD []))) = true
  · rw [rewriteStep_skip uj bn dl st src0 hskip]; exact hinv
  · have hns : ((pyStrip (src0.getD [])).isEmpty
        || lcIsPrefix (toLC "data:") (pyStrip (src0.getD []))) = false := by
      simpa using hskip
    cases hcc : alookup (uj (pyStrip (src0.getD []))) st.cache with
    | some rel' => rw [rewriteStep_hit uj bn dl st src0 rel' hns hcc]; exact hinv
    | none =>
      cases hdl : dl (uj (pyStrip (src0.getD []))) with
      | none => rw [rewriteStep_miss_fail uj bn dl st src0 hns hcc hdl]; exact hinv
      | some data =>
        rw [rewriteStep_miss_ok uj bn dl st src0 data hns hcc hdl]
        intro p hp
        rcases List.mem_append.mp hp with hp | hp
        · exact hinv p hp
        · have : p = (uj (pyStrip (src0.getD [])),
              toLC "assets/" ++ _unique_name st.files
                (if (bn (uj (pyStrip (src0.getD [])))).isEmpty then toLC "image"
                 else bn (uj (pyStrip (src0.getD []))))) := by simpa using hp
          rw [this]
          simp [hdl]

/-- For a URL whose download fails, every image resolving to it triggers a
fresh (failing) fetch attempt, is left untouched, and leaves a warning; no
file is ever written for it. -/
theorem rewriteRun_failing {β : Type} (uj bn : LC → LC) (dl : LC → Option β)
    (u : LC) (hdl : dl u = none) :
    ∀ (imgs : List (Option LC)) (st : RewState β),
    (∀ p ∈ st.cache, dl p.1 ≠ none) →
    (∀ p ∈ (rewriteRun uj bn dl st imgs).1.cache, dl p.1 ≠ none) ∧
    (rewriteRun uj bn dl st imgs).2.length = imgs.length ∧
    (∀ w ∈ st.warnings, w ∈ (rewriteRun uj bn dl st imgs).1.warnings) ∧
    countWrites u (rewriteRun uj bn dl st imgs).1.writes = countWrites u st.writes ∧
    countOcc u (rewriteRun uj bn dl st imgs).1.fetchLog =
      countOcc u st.fetchLog + imgs.countP (resolvesTo uj u) ∧
    (∀ i (hi : i < imgs.length) (hi2 : i < (rewriteRun uj bn dl st imgs).2.length),
      resolvesTo uj u (imgs.get ⟨i, hi⟩) = true →
      (rewriteRun uj bn dl st imgs).2.get ⟨i, hi2⟩ = none ∧
      warnDownloadMsg u ∈ (rewriteRun uj bn dl st imgs).1.warnings) := by
  intro imgs
  induction imgs with
  | nil =>
    intro st hinv
    refine ⟨hinv, rfl, fun w hw => hw, rfl, by simp [rewriteRun], ?_⟩
    intro i hi
    simp at hi
  | cons src0 rest ih =>
    intro st hinv
    by_cases hres : resolvesTo uj u src0 = true
    · obtain ⟨hns, habs⟩ := resolvesTo_true_elim hres
      have hcc : alookup (uj (pyStrip (src0.getD []))) st.cache = none := by
        cases hc0 : alookup (uj (pyStrip (src0.getD []))) st.cache with
        | none => rfl
        | some rel' =>
          have hmem := alookup_mem hc0
          have := hinv _ hmem
          rw [habs] at this
          exact absurd hdl this
      have hdl' : dl (uj (pyStrip (src0.getD []))) = none := by rw [habs]; exact hdl
      have hstep := rewriteStep_miss_fail uj bn dl st src0 hns hcc hdl'
      rw [habs] at hstep
      have hc1 : (rewriteStep uj bn dl st src0).1.cache = st.cache := by rw [hstep]
      have hf1 : (rewriteStep uj bn dl st src0).1.fetchLog = st.fetchLog ++ [u] := by
        rw [hstep]
      have hw1 : (rewriteStep uj bn dl st src0).1.writes = st.writes := by rw [hstep]
      have hwa1 : (rewriteStep uj bn dl st src0).1.warnings =
          st.warnings ++ [warnDownloadMsg u] := by rw [hstep]
      have hout : (rewriteStep uj bn dl st src0).2 = none := by rw [hstep]
      have hinv1 : ∀ p ∈ (rewriteStep uj bn dl st src0).1.cache, dl p.1 ≠ none := by
        rw [hc1]; exact hinv
      have hih := ih (rewriteStep uj bn dl st src0).1 hinv1
      rw [rewriteRun_cons]
      refine ⟨hih.1, by simp [hih.2.1], ?_, ?_, ?_, ?_⟩
      · intro w hw
        exact hih.2.2.1 w (by rw [hwa1]; exact List.mem_append_left _ hw)
      · rw [hih.2.2.2.1, hw1]
      · rw [hih.2.2.2.2.1, hf1, countOcc_snoc_eq]
        simp [List.countP_cons, hres]
        omega
      · intro i hi hi2 hrt
        have hwarnfin : warnDownloadMsg u ∈
            (rewriteRun uj bn dl (rewriteStep uj bn dl st src0).1 rest).1.warnings := by
          apply hih.2.2.1
          rw [hwa1]
          exact List.mem_append_right _ (by simp)
        match i with
        | 0 => exact ⟨by simp [List.get, hout], hwarnfin⟩
        | i + 1 =>
          have hi' : i < rest.length := by simpa using hi
          have hi2' : i < (rewriteRun uj bn dl
              (rewriteStep uj bn dl st src0).1 rest).2.length := by simpa using hi2
          have := hih.2.2.2.2.2 i hi' hi2' (by simpa using hrt)
          exact ⟨by simpa using this.1, this.2⟩
    · have hresf : resolvesTo uj u src0 = false := by simpa using hres
      have hpres := rewriteStep_not_resolving uj bn dl st src0 u hresf
      have hinv1 := rewriteStep_cache_inv uj bn dl st src0 hinv
      have hih := ih (rewriteStep uj bn dl st src0).1 hinv1
      rw [rewriteRun_cons]
      refine ⟨hih.1, by simp [hih.2.1], ?_, ?_, ?_, ?_⟩
      · intro w hw
        exact hih.2.2.1 w (hpres.2.2.2 w hw)
      · rw [hih.2.2.2.1, hpres.2.2.1]
      · rw [hih.2.2.2.2.1, hpres.2.1]
        simp [List.countP_cons, hresf]
      · intro i hi hi2 hrt
        match i with
        | 0 => simp [List.get] at hrt; rw [hresf] at hrt; exact absurd hrt (by simp)
        | i + 1 =>
          have hi' : i < rest.length := by simpa using hi
          have hi2' : i < (rewriteRun uj bn dl
              (rewriteStep uj bn dl st src0).1 rest).2.length := by simpa using hi2
          have := hih.2.2.2.2.2 i hi' hi2' (by simpa using hrt)
          exact ⟨by simpa using this.1, this.2⟩

/-- An image whose (non-skipped) resolved URL downloads successfully is
always rewritten: either from the cache or after a fresh successful fetch. -/
theorem rewriteRun_success_some {β : Type} (uj bn : LC → LC) (dl : LC → Option β) :
    ∀ (imgs : List (Option LC)) (st : RewState β) (i : Nat) (hi : i < imgs.length)
      (hi2 : i < (rewriteRun uj bn dl st imgs).2.length),
    ((pyStrip ((imgs.get ⟨i, hi⟩).getD [])).isEmpty
      || lcIsPrefix (toLC "data:") (pyStrip ((imgs.get ⟨i, hi⟩).getD []))) = false →
    dl (uj (pyStrip ((imgs.get ⟨i, hi⟩).getD []))) ≠ none →
    ((rewriteRun uj bn dl st imgs).2.get ⟨i, hi2⟩).isSome = true := by
  intro imgs
  induction imgs with
  | nil => intro st i hi; simp at hi
  | cons src0 rest ih =>
    intro st i hi hi2 hns hdl
    match i with
    | 0 =>
      simp only [List.get] at hns hdl
      revert hi2
      rw [rewriteRun_cons]
      intro hi2
      cases hcc : alookup (uj (pyStrip (src0.getD []))) st.cache with
      | some rel' => simp [List.get, rewriteStep_hit uj bn dl st src0 rel' hns hcc]
      | none =>
        cases hdlv : dl (uj (pyStrip (src0.getD []))) with
        | none => exact absurd hdlv hdl
        | some data =>
          simp [List.get, rewriteStep_miss_ok uj bn dl st src0 data hns hcc hdlv]
    | i + 1 =>
      have hi' : i < rest.length := by simpa using hi
      revert hi2
      rw [rewriteRun_cons]
      intro hi2
      have hi2' : i < (rewriteRun uj bn dl
          (rewriteStep uj bn dl st src0).1 rest).2.length := by simpa using hi2
      have := ih (rewriteStep uj bn dl st src0).1 i hi' hi2'
        (by simpa using hns) (by simpa using hdl)
      simpa using this

/-- C4 counterexample: with a download oracle that always fails, two image
references resolving to the same absolute URL trigger two fetch attempts —
a failed fetch is not recorded in the dedup cache, so the later reference
fetches the URL again, contradicting "at most one fetch of that URL is ever
attempted ... including when an earlier fetch attempt failed". -/
theorem c4_counterexample :
    (@_rewrite_images Unit (fun s => s) (fun _ => toLC "u") (fun _ => none) []
        [some (toLC "u"), some (toLC "u")]).1.fetchLog = [toLC "u", toLC "u"] ∧
    ¬ countOcc (toLC "u")
        (@_rewrite_images Unit (fun s => s) (fun _ => toLC "u") (fun _ => none) []
          [some (toLC "u"), some (toLC "u")]).1.fetchLog ≤ 1 := by
  decide

/-- C4 (amended): during one run of `_rewrite_images`, for every absolute URL
whose download succeeds, at most one fetch of that URL is attempted — later
references hit the dedup cache.  After a failed attempt the URL stays
uncached, and a later reference to it does trigger another fetch attempt. -/
theorem c4_single_fetch_on_success {β : Type} (uj bn : LC → LC) (dl : LC → Option β)
    (u : LC) (b : β) (hdl : dl u = some b) (files0 : List LC)
    (imgs : List (Option LC)) :
    countOcc u (_rewrite_images uj bn dl files0 imgs).1.fetchLog ≤ 1 := by
  simp only [_rewrite_images]
  rcases (rewriteRun_fresh uj bn dl u b hdl imgs ⟨[], files0, [], [], []⟩ rfl).2 with
    ⟨-, -, hf, -⟩ | ⟨name, -, hf, -, -⟩ <;> simp [hf, countOcc]

theorem c4_single_fetch_on_success_witness :
    countOcc (toLC "u")
      (@_rewrite_images Nat (fun s => s) (fun _ => toLC "u") (fun _ => some 7) []
        [some (toLC "u"), some (toLC "u")]).1.fetchLog ≤ 1 :=
  c4_single_fetch_on_success (fun s => s) (fun _ => toLC "u") (fun _ => some 7)
    (toLC "u") 7 rfl [] [some (toLC "u"), some (toLC "u")]

/-- C7: in a run of `_rewrite_images` over a Document with at least one image
reference resolving to the absolute URL `u`, when downloading `u` succeeds,
exactly one asset file is created for `u` (one fetch, one write) and every
image reference resolving to `u` — regardless of its raw attribute text — is
rewritten to the same local relative path `assets/<name>`. -/
theorem c7_dedup_by_absolute_url {β : Type} (uj bn : LC → LC) (dl : LC → Option β)
    (u : LC) (b : β) (hdl : dl u = some b) (files0 : List LC)
    (imgs : List (Option LC))
    (hex : ∃ i, ∃ hi : i < imgs.length, resolvesTo uj u (imgs.get ⟨i, hi⟩) = true) :
    ∃ name : LC,
      countWrites u (_rewrite_images uj bn dl files0 imgs).1.writes = 1 ∧
      countOcc u (_rewrite_images uj bn dl files0 imgs).1.fetchLog = 1 ∧
      alookup u (_rewrite_images uj bn dl files0 imgs).1.cache =
        some (toLC "assets/" ++ name) ∧
      (_rewrite_images uj bn dl files0 imgs).2.length = imgs.length ∧
      ∀ i (hi : i < imgs.length)
        (hi2 : i < (_rewrite_images uj bn dl files0 imgs).2.length),
        resolvesTo uj u (imgs.get ⟨i, hi⟩) = true →
        (_rewrite_images uj bn dl files0 imgs).2.get ⟨i, hi2⟩ =
          some (toLC "assets/" ++ name) := by
  simp only [_rewrite_images]
  have hfresh := rewriteRun_fresh uj bn dl u b hdl imgs ⟨[], files0, [], [], []⟩ rfl
  rcases hfresh.2 with ⟨hall, -, -, -⟩ | ⟨name, hc, hf, hw, hout⟩
  · obtain ⟨i, hi, hr⟩ := hex
    rw [hall i hi] at hr
    exact absurd hr (by simp)
  · refine ⟨name, ?_, ?_, hc, hfresh.1, hout⟩
    · rw [hw]; rfl
    · rw [hf]; rfl

theorem c7_dedup_by_absolute_url_witness :
    ∃ name : LC,
      countWrites (toLC "http://h/a.png")
        (@_rewrite_images Nat (fun _ => toLC "http://h/a.png") (fun _ => toLC "a.png")
          (fun _ => some 7) [] [some (toLC "x"), some (toLC "y")]).1.writes = 1 ∧
      countOcc (toLC "http://h/a.png")
        (@_rewrite_images Nat (fun _ => toLC "http://h/a.png") (fun _ => toLC "a.png")
          (fun _ => some 7) [] [some (toLC "x"), some (toLC "y")]).1.fetchLog = 1 ∧
      alookup (toLC "http://h/a.png")
        (@_rewrite_images Nat (fun _ => toLC "http://h/a.png") (fun _ => toLC "a.png")
          (fun _ => some 7) [] [some (toLC "x"), some (toLC "y")]).1.cache =
        some (toLC "assets/" ++ name) ∧
      (@_rewrite_images Nat (fun _ => toLC "http://h/a.png") (fun _ => toLC "a.png")
          (fun _ => some 7) [] [some (toLC "x"), some (toLC "y")]).2.length =
        [some (toLC "x"), some (toLC "y")].length ∧
      ∀ i (hi : i < [some (toLC "x"), some (toLC "y")].length)
        (hi2 : i < (@_rewrite_images Nat (fun _ => toLC "http://h/a.png")
          (fun _ => toLC "a.png") (fun _ => some 7) []
          [some (toLC "x"), some (toLC "y")]).2.length),
        resolvesTo (fun _ => toLC "http://h/a.png") (toLC "http://h/a.png")
          ([some (toLC "x"), some (toLC "y")].get ⟨i, hi⟩) = true →
        (@_rewrite_images Nat (fun _ => toLC "http://h/a.png") (fun _ => toLC "a.png")
          (fun _ => some 7) [] [some (toLC "x"), some (toLC "y")]).2.get ⟨i, hi2⟩ =
          some (toLC "assets/" ++ name) :=
  c7_dedup_by_absolute_url (fun _ => toLC "http://h/a.png") (fun _ => toLC "a.png")
    (fun _ => some 7) (toLC "http://h/a.png") 7 rfl []
    [some (toLC "x"), some (toLC "y")] ⟨0, by decide, by decide⟩

/-- A parsed document node: an element with tag, attributes (the `class`
attribute stored as its raw space-separated value: bs4 splits it into tokens
and the source re-joins them with single spaces before a substring test,
which is equivalent for space-free needles) and children, or a text node. -/
inductive HNode where
  | text (s : LC)
  | elem (tag : LC) (attrs : List (LC × LC)) (children : List HNode)

def tagOf : HNode → Option LC
  | .text _ => none
  | .elem t _ _ => some t

/-- bs4 `node.get(name)`. -/
def attrGet (name : LC) : HNode → Option LC
  | .text _ => none
  | .elem _ attrs _ => alookup name attrs

mutual
/-- All descendants of a node in document order (the search space of bs4
`find_all`, the node itself excluded). -/
def nodeDescs : HNode → List HNode
  | .text _ => []
  | .elem _ _ cs => listDescs cs
def listDescs : List HNode → List HNode
  | [] => []
  | c :: rest => c :: (nodeDescs c ++ listDescs rest)
end

mutual
/-- bs4 `node.get_text()`: concatenation of all text in the subtree. -/
def getText : HNode → LC
  | .text s => s
  | .elem _ _ cs => getTextList cs
def getTextList : List HNode → LC
  | [] => []
  | c :: rest => getText c ++ getTextList rest
end

def isAnnTag (n : HNode) : Bool :=
  tagOf n == some (toLC "annotation") || tagOf n == some (toLC "annotation-xml")

/-- The annotation scan of `_mathml_to_tex`: the first descendant of `m`
matched by `find_all(["annotation", "annotation-xml"])` whose `encoding`
attribute contains "tex" case-insensitively; its `get_text()` is taken,
even when it is empty. -/
def texFromAnn (m : HNode) : Option LC :=
  ((nodeDescs m).find? (fun a =>
    isAnnTag a &&
      lcContains (toLC "tex") (lowerLC ((attrGet (toLC "encoding") a).getD [])))).map
    getText

/-- Python `m.get("alttext") or m.get("data-tex")`: `or` moves past a
missing attribute and past an empty (falsy) string. -/
def texFromAttrs (m : HNode) : Option LC :=
  match attrGet (toLC "alttext") m with
  | some s => if s.isEmpty then attrGet (toLC "data-tex") m else some s
  | none => attrGet (toLC "data-tex") m

/-- The value of `tex` in `_mathml_to_tex` just before the `if not tex`
check: the annotation result when a tex-encoded annotation exists (the
`if tex is None` test does not fall through on an empty string), else the
attribute fallback. -/
def texOf (m : HNode) : Option LC :=
  match texFromAnn m with
  | some t => some t
  | none => texFromAttrs m

/-- The parent-class inference:
`any(k in classes for k in ["ltx_display", "ltx_equation", "ltx_equationgroup"])`
on the parent's joined class tokens; `none` models both a detached node and
the BeautifulSoup root, which the source excludes with its isinstance
check. -/
def parentHasDisplayClass : Option HNode → Bool
  | none => false
  | some p =>
    let classes := (attrGet (toLC "class") p).getD []
    lcContains (toLC "ltx_display") classes ||
      lcContains (toLC "ltx_equation") classes ||
      lcContains (toLC "ltx_equationgroup") classes

/-- `is_block` as computed in `_mathml_to_tex`: the lowered `display`
attribute equals "block", else the parent-class inference. -/
def isBlockOf (m : HNode) (parent : Option HNode) : Bool :=
  if lowerLC ((attrGet (toLC "display") m).getD []) == toLC "block" then true
  else parentHasDisplayClass parent

/-- Block rendering `f"\n$$\n{tex}\n$$\n"`. -/
def blockRender (t : LC) : LC := toLC "\n$$\n" ++ t ++ toLC "\n$$\n"

/-- Inline rendering `f"${tex}$"`. -/
def inlineRender (t : LC) : LC := '$' :: (t ++ ['$'])

/-- Body of the `for m in soup.find_all("math")` loop of `_mathml_to_tex`
for one math element `m` with parent `parent`: `none` means the node is
left unreplaced (`continue`), `some s` that it is replaced by a text node
holding `s`. -/
def mathReplacement (m : HNode) (parent : Option HNode) : Option LC :=
  match texOf m with
  | none => none
  | some t =>
    if t.isEmpty then none
    else
      some (if isBlockOf m parent || lcContains ['\n'] (pyStrip t)
            then blockRender (pyStrip t) else inlineRender (pyStrip t))

/-- A math element with a tex-encoded annotation child holding `t` and an
`alttext` attribute holding `a`. -/
def mathAnnAlt (t a : LC) : HNode :=
  .elem (toLC "math") [(toLC "alttext", a)]
    [.elem (toLC "annotation") [(toLC "encoding", toLC "application/x-tex")]
      [.text t]]

/-- C2 counterexample: a math node whose tex-encoded annotation text is a
single space (empty after trimming) but whose `alttext` is the non-empty
"x".  The claim predicts the fallback chain moves on to `alttext` (yielding
the inline fragment for "x"), or at least that the node is never replaced by
an empty TeX fragment; the code replaces it with the empty fragment `$$`
because the annotation step short-circuits on presence, not non-emptiness,
and the emptiness test runs before trimming. -/
theorem c2_counterexample :
    ¬ (mathReplacement (mathAnnAlt (toLC " ") (toLC "x")) none = none ∨
       mathReplacement (mathAnnAlt (toLC " ") (toLC "x")) none =
         some (inlineRender (toLC "x"))) ∧
    mathReplacement (mathAnnAlt (toLC " ") (toLC "x")) none = some (toLC "$$") := by
  decide

/-- C2 (amended): the extraction chain short-circuits on the first
tex-encoded annotation found, not on the first non-empty result: its text is
taken even when empty or whitespace-only, and the attribute fallback is then
never consulted.  The node is left unreplaced exactly when the extracted
string is empty; a whitespace-only extraction is replaced as an empty TeX
fragment. -/
theorem c2_annotation_presence_wins (t a : LC) :
    mathReplacement (mathAnnAlt t a) none =
      (if t.isEmpty then none
       else some (if lcContains ['\n'] (pyStrip t) then blockRender (pyStrip t)
                  else inlineRender (pyStrip t))) := by
  have h1 : texOf (mathAnnAlt t a) = some (t ++ []) := rfl
  have h2 : isBlockOf (mathAnnAlt t a) none = false := rfl
  simp [mathReplacement, h1, h2]

/-- C5: display classification of every math node with an extracted TeX
source.  A `display` attribute saying "block" forces block delimiters
regardless of the parent; with no display attribute, a parent class in the
display-context set forces block delimiters; with neither, the node renders
inline unless its trimmed TeX source contains a line break, in which case it
renders as a block fragment. -/
theorem c5_display_classification (m : HNode) (parent : Option HNode) (t : LC)
    (hex : texOf m = some t) (hne : t.isEmpty = false) :
    (lowerLC ((attrGet (toLC "display") m).getD []) = toLC "block" →
      mathReplacement m parent = some (blockRender (pyStrip t))) ∧
    (attrGet (toLC "display") m = none → parentHasDisplayClass parent = true →
      mathReplacement m parent = some (blockRender (pyStrip t))) ∧
    (attrGet (toLC "display") m = none → parentHasDisplayClass parent = false →
      (lcContains ['\n'] (pyStrip t) = true →
        mathReplacement m parent = some (blockRender (pyStrip t))) ∧
      (lcContains ['\n'] (pyStrip t) = false →
        mathReplacement m parent = some (inlineRender (pyStrip t)))) := by
  refine ⟨?_, ?_, ?_⟩
  · intro hd
    have hb : isBlockOf m parent = true := by simp [isBlockOf, hd]
    simp [mathReplacement, hex, hne, hb]
  · intro hd hp
    have hcond : (lowerLC ((attrGet (toLC "display") m).getD []) == toLC "block") = false := by
      rw [hd]; decide
    have hb : isBlockOf m parent = true := by
      simp [isBlockOf, hcond, hp]
    simp [mathReplacement, hex, hne, hb]
  · intro hd hp
    have hcond : (lowerLC ((attrGet (toLC "display") m).getD []) == toLC "block") = false := by
      rw [hd]; decide
    have hb : isBlockOf m parent = false := by
      simp [isBlockOf, hcond, hp]
    refine ⟨?_, ?_⟩ <;> intro hc <;> simp [mathReplacement, hex, hne, hb, hc]

/-- A display="block" math element carrying its TeX in `alttext`. -/
def c5node : HNode :=
  .elem (toLC "math")
    [(toLC "display", toLC "block"), (toLC "alttext", toLC "E=mc^2")] []

theorem c5_display_classification_witness :
    (lowerLC ((attrGet (toLC "display") c5node).getD []) = toLC "block" →
      mathReplacement c5node none = some (blockRender (pyStrip (toLC "E=mc^2")))) ∧
    (attrGet (toLC "display") c5node = none → parentHasDisplayClass none = true →
      mathReplacement c5node none = some (blockRender (pyStrip (toLC "E=mc^2")))) ∧
    (attrGet (toLC "display") c5node = none → parentHasDisplayClass none = false →
      (lcContains ['\n'] (pyStrip (toLC "E=mc^2")) = true →
        mathReplacement c5node none = some (blockRender (pyStrip (toLC "E=mc^2")))) ∧
      (lcContains ['\n'] (pyStrip (toLC "E=mc^2")) = false →
        mathReplacement c5node none = some (inlineRender (pyStrip (toLC "E=mc^2"))))) :=
  c5_display_classification c5node none (toLC "E=mc^2") (by decide) (by decide)

example : mathReplacement c5node none = some (toLC "\n$$\nE=mc^2\n$$\n") := by decide

example : mathReplacement
    (.elem (toLC "math") [(toLC "alttext", toLC "a+b")] [])
    (some (.elem (toLC "div") [(toLC "class", toLC "ltx_equation ltx_eqn_table")] [])) =
    some (toLC "\n$$\na+b\n$$\n") := by decide

example : mathReplacement (.elem (toLC "math") [(toLC "alttext", toLC "a+b")] []) none =
    some (toLC "$a+b$") := by decide

/-- The regex search `/html/([^?#]+)` of `_guess_basename` on the parsed
URL path, with backtracking: the first occurrence of `/html/` followed by at
least one character that is neither `?` nor `#`, capturing the maximal such
run. -/
def guessCapture : LC → Option LC
  | [] => none
  | c :: rest =>
    if lcIsPrefix (toLC "/html/") (c :: rest) then
      let cap := ((c :: rest).drop 6).takeWhile (fun x => x != '?' && x != '#')
      if cap.isEmpty then guessCapture rest else some cap
    else guessCapture rest

/-- `pathlib.Path(p).name`: drop trailing separators, then take the final
component (dot components are not normalised in this model; the inputs the
pipeline feeds this are plain URL paths). -/
def pathName (p : LC) : LC :=
  (((p.reverse.dropWhile (fun c => c == '/')).takeWhile (fun c => c != '/'))).reverse

/-- `_guess_basename(url)` from the source, over the parsed URL path
(`urlparse(url).path` is computed by the stdlib and passed in): the captured
`/html/` tail with `/` flattened to `_`, else the final path component, else
"ar5iv". -/
def _guess_basename (urlPath : LC) : LC :=
  match guessCapture urlPath with
  | some cap => cap.map (fun c => if c == '/' then '_' else c)
  | none => if (pathName urlPath).isEmpty then toLC "ar5iv" else pathName urlPath

example : _guess_basename (toLC "/html/2404.12345v2") = toLC "2404.12345v2" := by decide

example : _guess_basename (toLC "/html/math.GT/0309136") = toLC "math.GT_0309136" := by
  decide

/-- Observable outcome of one `main()` run: process exit code, the lines
printed on stdout and stderr, the asset-file writes and the README write. -/
structure MainResult (β : Type) where
  exitCode : Nat
  stdoutL : List LC
  stderrL : List LC
  assetWrites : List (LC × LC × β)
  readmeWrite : Option (LC × LC)

/-- `main()` from the source, from the point where the request URL is fixed
(the argument parsing and `_to_ar5iv_url` of lines 183-189 are upstream of
every modelled claim; `urlPath` is `urlparse(url).path` for
`_guess_basename`).  External collaborators are explicit: `fetchDoc` is the
`_fetch` outcome (`none` a raised exception, whose text is dropped from the
modelled error line), `dirNonEmpty` the value of
`base_dir.exists() and any(base_dir.iterdir())`, `parseImgs` the raw image
`src` attributes of the parsed and footer-stripped soup, `urljoin` and
`basenameOf` the stdlib URL helpers, `download` the asset fetch,
`harvestBibIds` the harvested `bib.bibN` ids, and `convert` the markdownify
serialisation of the transformed soup (a function of the fetched HTML and of
the rewritten image references).  Directory creation is not a file write:
`mkdir` only ever runs on the non-skip path. -/
def mainModel {β : Type} (urlPath downloadDir : LC)
    (fetchDoc : Option (LC × LC)) (dirNonEmpty : Bool)
    (parseImgs : LC → List (Option LC)) (urljoin : LC → LC → LC)
    (basenameOf : LC → LC) (download : LC → Option β)
    (harvestBibIds : LC → List LC) (convert : LC → List (Option LC) → LC) :
    MainResult β :=
  match fetchDoc with
  | none => ⟨1, [], [toLC "failed to fetch"], [], none⟩
  | some hb =>
    let baseDir := downloadDir ++ toLC "/" ++ _guess_basename urlPath
    let outPath := baseDir ++ toLC "/README.md"
    if dirNonEmpty then
      ⟨0, [outPath], [toLC "warn: output directory not empty, skip: " ++ baseDir],
        [], none⟩
    else
      let run := _rewrite_images (urljoin hb.2) basenameOf download [] (parseImgs hb.1)
      let bibIds := harvestBibIds hb.1
      let md0 := convert hb.1 run.2
      let mdText := if bibIds.isEmpty then md0 else _add_md_bib_anchors md0 bibIds
      ⟨0, [outPath], run.1.warnings, run.1.writes, some (outPath, mdText)⟩

/-- C9: with a successful document fetch and a non-empty pre-existing target
directory, the run is skipped: the expected output path is still printed on
stdout, the skip warning goes to stderr, and no asset or README write of any
kind is performed; the printed path is identical to the one the non-skipped
run with the same arguments prints, so two runs against the same output
directory report the same path. -/
theorem c9_skip_nonempty_dir {β : Type} (urlPath downloadDir : LC) (hb : LC × LC)
    (parseImgs : LC → List (Option LC)) (urljoin : LC → LC → LC)
    (basenameOf : LC → LC) (download : LC → Option β)
    (harvestBibIds : LC → List LC) (convert : LC → List (Option LC) → LC) :
    mainModel urlPath downloadDir (some hb) true parseImgs urljoin basenameOf
        download harvestBibIds convert =
      ⟨0, [downloadDir ++ toLC "/" ++ _guess_basename urlPath ++ toLC "/README.md"],
        [toLC "warn: output directory not empty, skip: "
          ++ (downloadDir ++ toLC "/" ++ _guess_basename urlPath)],
        [], none⟩ ∧
    (mainModel urlPath downloadDir (some hb) false parseImgs urljoin basenameOf
        download harvestBibIds convert).stdoutL =
      (mainModel urlPath downloadDir (some hb) true parseImgs urljoin basenameOf
        download harvestBibIds convert).stdoutL := by
  exact ⟨rfl, rfl⟩

/-- C8: a failed main-document fetch exits with status 1, an error line on
stderr, nothing on stdout and no file writes at all; an individual asset
download failure does not abort the run — the image reference resolving to
the failing URL is left untouched, a warning for it appears on stderr, no
asset file is written for it, while every image whose resolved URL downloads
successfully is still localized, and the process exits 0 with the Markdown
path printed on stdout and the README written. -/
theorem c8_fatal_vs_recoverable {β : Type} (urlPath downloadDir : LC) (hb : LC × LC)
    (parseImgs : LC → List (Option LC)) (urljoin : LC → LC → LC)
    (basenameOf : LC → LC) (download : LC → Option β)
    (harvestBibIds : LC → List LC) (convert : LC → List (Option LC) → LC)
    (u : LC) (i j : Nat)
    (hi : i < (parseImgs hb.1).length)
    (hi2 : i < (_rewrite_images (urljoin hb.2) basenameOf download []
      (parseImgs hb.1)).2.length)
    (hdl : download u = none)
    (hrt : resolvesTo (urljoin hb.2) u ((parseImgs hb.1).get ⟨i, hi⟩) = true)
    (hj : j < (parseImgs hb.1).length)
    (hj2 : j < (_rewrite_images (urljoin hb.2) basenameOf download []
      (parseImgs hb.1)).2.length)
    (hjns : ((pyStrip (((parseImgs hb.1).get ⟨j, hj⟩).getD [])).isEmpty
      || lcIsPrefix (toLC "data:")
          (pyStrip (((parseImgs hb.1).get ⟨j, hj⟩).getD []))) = false)
    (hjdl : download (urljoin hb.2
      (pyStrip (((parseImgs hb.1).get ⟨j, hj⟩).getD []))) ≠ none) :
    mainModel urlPath downloadDir none false parseImgs urljoin basenameOf download
        harvestBibIds convert =
      (⟨1, [], [toLC "failed to fetch"], [], none⟩ : MainResult β) ∧
    (mainModel urlPath downloadDir (some hb) false parseImgs urljoin basenameOf
        download harvestBibIds convert).exitCode = 0 ∧
    (mainModel urlPath downloadDir (some hb) false parseImgs urljoin basenameOf
        download harvestBibIds convert).stdoutL =
      [downloadDir ++ toLC "/" ++ _guess_basename urlPath ++ toLC "/README.md"] ∧
    ((mainModel urlPath downloadDir (some hb) false parseImgs urljoin basenameOf
        download harvestBibIds convert).readmeWrite).isSome = true ∧
    (_rewrite_images (urljoin hb.2) basenameOf download []
        (parseImgs hb.1)).2.get ⟨i, hi2⟩ = none ∧
    warnDownloadMsg u ∈ (mainModel urlPath downloadDir (some hb) false parseImgs
        urljoin basenameOf download harvestBibIds convert).stderrL ∧
    countWrites u (mainModel urlPath downloadDir (some hb) false parseImgs urljoin
        basenameOf download harvestBibIds convert).assetWrites = 0 ∧
    ((_rewrite_images (urljoin hb.2) basenameOf download []
        (parseImgs hb.1)).2.get ⟨j, hj2⟩).isSome = true := by
  have hfail := rewriteRun_failing (urljoin hb.2) basenameOf download u hdl
    (parseImgs hb.1) ⟨[], [], [], [], []⟩ (by intro p hp; simp at hp)
  refine ⟨rfl, rfl, rfl, rfl, ?_, ?_, ?_, ?_⟩
  · exact (hfail.2.2.2.2.2 i hi hi2 hrt).1
  · exact (hfail.2.2.2.2.2 i hi hi2 hrt).2
  · show countWrites u (rewriteRun (urljoin hb.2) basenameOf download
      ⟨[], [], [], [], []⟩ (parseImgs hb.1)).1.writes = 0
    simpa [countWrites] using hfail.2.2.2.1
  · exact rewriteRun_success_some (urljoin hb.2) basenameOf download
      (parseImgs hb.1) ⟨[], [], [], [], []⟩ j hj hj2 hjns hjdl

/-- Three image references, the middle one resolving to a failing URL. -/
def c8imgs : List (Option LC) := [some (toLC "good"), some (toLC "bad"), some (toLC "good2")]

/-- Download oracle failing exactly on the URL "bad". -/
def c8download : LC → Option Nat := fun v => if v == toLC "bad" then none else some 1

theorem c8_fatal_vs_recoverable_witness :
    mainModel (toLC "/html/p1") (toLC ".") none false (fun _ => c8imgs)
        (fun _ s => s) (fun v => v) c8download (fun _ => []) (fun _ _ => toLC "md") =
      (⟨1, [], [toLC "failed to fetch"], [], none⟩ : MainResult Nat) ∧
    (mainModel (toLC "/html/p1") (toLC ".") (some (toLC "h", toLC "b")) false
        (fun _ => c8imgs) (fun _ s => s) (fun v => v) c8download (fun _ => [])
        (fun _ _ => toLC "md")).exitCode = 0 ∧
    (mainModel (toLC "/html/p1") (toLC ".") (some (toLC "h", toLC "b")) false
        (fun _ => c8imgs) (fun _ s => s) (fun v => v) c8download (fun _ => [])
        (fun _ _ => toLC "md")).stdoutL =
      [toLC "." ++ toLC "/" ++ _guess_basename (toLC "/html/p1") ++ toLC "/README.md"] ∧
    ((mainModel (toLC "/html/p1") (toLC ".") (some (toLC "h", toLC "b")) false
        (fun _ => c8imgs) (fun _ s => s) (fun v => v) c8download (fun _ => [])
        (fun _ _ => toLC "md")).readmeWrite).isSome = true ∧
    (_rewrite_images (fun s => s) (fun v => v) c8download [] c8imgs).2.get
      ⟨1, by decide⟩ = none ∧
    warnDownloadMsg (toLC "bad") ∈
      (mainModel (toLC "/html/p1") (toLC ".") (some (toLC "h", toLC "b")) false
        (fun _ => c8imgs) (fun _ s => s) (fun v => v) c8download (fun _ => [])
        (fun _ _ => toLC "md")).stderrL ∧
    countWrites (toLC "bad")
      (mainModel (toLC "/html/p1") (toLC ".") (some (toLC "h", toLC "b")) false
        (fun _ => c8imgs) (fun _ s => s) (fun v => v) c8download (fun _ => [])
        (fun _ _ => toLC "md")).assetWrites = 0 ∧
    ((_rewrite_images (fun s => s) (fun v => v) c8download [] c8imgs).2.get
      ⟨0, by decide⟩).isSome = true :=
  c8_fatal_vs_recoverable (toLC "/html/p1") (toLC ".") (toLC "h", toLC "b")
    (fun _ => c8imgs) (fun _ s => s) (fun v => v) c8download (fun _ => [])
    (fun _ _ => toLC "md") (toLC "bad") 1 0 (by decide) (by decide) (by decide)
    (by decide) (by decide) (by decide) (by decide) (by decide)
